import Mathlib

/-!
Verification development for the Gibbs/Metropolis sampler of
`src/frame/bslmm.hpp` (class `hmlp::mcmc::Variables`).

The C++ code is shallowly embedded over `ℚ`.  Real-valued doubles become
rationals; the transcendental library calls (`std::log`, `std::exp`,
`std::sqrt`) and the Gamma sampling algorithm are abstract function
parameters collected in an `Env`; the pseudorandom generator is a stream
`ω : ℕ → ℚ` of raw draws consumed at an explicit counter threaded through
the state, so that a normal draw with mean `m` and deviation `s` is
`m + s * (raw value)` and a Bernoulli draw with parameter `p` succeeds
iff the raw value is `< p`.  The adaptive-prior reflection rule is also
analysed over `ℝ` with the genuine `Real.exp`, where its range behaviour
is a matter of real arithmetic.
-/

namespace Bslmm

/-- Abstract environment: the Gamma sampling routine (shape, scale, raw
uniform value) and the transcendental functions the code calls. -/
structure Env where
  gamf : ℚ → ℚ → ℚ → ℚ
  exf : ℚ → ℚ
  logf : ℚ → ℚ
  sqrtf : ℚ → ℚ

/-- A normal draw `std::normal_distribution(mean, sd)(generator)`,
modelled as mean plus deviation times the raw stream value. -/
def normald (mean sd u : ℚ) : ℚ := mean + sd * u

/-- A uniform draw on `[a, b]`, as used by `hmlp::Data::rand(a, b)`. -/
def unifd (a b u : ℚ) : ℚ := a + (b - a) * u

/-- A Bernoulli draw `std::bernoulli_distribution(p)(generator)`. -/
def bernd (p u : ℚ) : Bool := decide (u < p)

/-- The immutable inputs: dimensions and data matrices.  Matrices are
column indexed: `M j i` is the entry in row `i` of column `j`,
matching the column-major layout `M[j * n + i]` of the source. -/
structure Dat where
  n : ℕ
  q : ℕ
  w1 : ℕ
  w2 : ℕ
  Y : ℕ → ℚ
  A : ℕ → ℚ
  M : ℕ → ℕ → ℚ
  C1 : ℕ → ℕ → ℚ
  C2 : ℕ → ℕ → ℚ

/-- Column squared norm of `A`, computed once in the constructor. -/
def A2norm (d : Dat) : ℚ := ∑ i ∈ Finset.range d.n, d.A i * d.A i

/-- Column squared norms of `M`. -/
def M2norm (d : Dat) (j : ℕ) : ℚ := ∑ i ∈ Finset.range d.n, d.M j i * d.M j i

/-- Column squared norms of `C1`. -/
def C1_2norm (d : Dat) (j : ℕ) : ℚ := ∑ i ∈ Finset.range d.n, d.C1 j i * d.C1 j i

/-- Column squared norms of `C2`. -/
def C2_2norm (d : Dat) (j : ℕ) : ℚ := ∑ i ∈ Finset.range d.n, d.C2 j i * d.C2 j i

/-- Hyperparameter `km0` of the source. -/
def km0 : ℚ := 2
/-- Hyperparameter `lm0`. -/
def lm0 : ℚ := 1/10
/-- Hyperparameter `km1`. -/
def km1 : ℚ := 2
/-- Hyperparameter `lm1`. -/
def lm1 : ℚ := 1/2
/-- Hyperparameter `ka`. -/
def ka : ℚ := 2
/-- Hyperparameter `la`. -/
def la : ℚ := 1
/-- Hyperparameter `kma0`. -/
def kma0 : ℚ := 2
/-- Hyperparameter `lma0`. -/
def lma0 : ℚ := 1
/-- Hyperparameter `kma1`. -/
def kma1 : ℚ := 2
/-- Hyperparameter `lma1`. -/
def lma1 : ℚ := 2
/-- Hyperparameter `ke`. -/
def ke : ℚ := 2
/-- Hyperparameter `le`. -/
def le : ℚ := 1
/-- Hyperparameter `kg`. -/
def kg : ℚ := 2
/-- Hyperparameter `lg`. -/
def lg : ℚ := 1

/-- The mutable sampler state: parameters, variance components, the
residual caches, the per-iteration posterior-variance scratch fields of
the class, and the position `cnt` in the random stream. -/
structure St where
  beta_a : ℚ
  beta_m : ℕ → ℚ
  alpha_a : ℕ → ℚ
  beta_c : ℕ → ℚ
  alpha_c : ℕ → ℕ → ℚ
  r1 : ℕ → ℚ
  r3 : ℕ → ℚ
  pi_m : ℕ → ℚ
  pi_a : ℕ → ℚ
  sigma_m0 : ℚ
  sigma_m1 : ℚ
  sigma_a : ℚ
  sigma_ma0 : ℚ
  sigma_ma1 : ℚ
  sigma_g : ℚ
  sigma_e : ℚ
  res1 : ℕ → ℚ
  res2 : ℕ → ℕ → ℚ
  res2_c : ℕ → ℕ → ℚ
  var_m0 : ℕ → ℚ
  var_m1 : ℕ → ℚ
  var_alpha_a0 : ℚ
  var_alpha_a1 : ℚ
  var_a : ℚ
  cnt : ℕ

/-- Write into a two-dimensional coefficient table at position `(a, b)`. -/
def upd2 (f : ℕ → ℕ → ℚ) (a b : ℕ) (v : ℚ) : ℕ → ℕ → ℚ :=
  fun x y => if x = a ∧ y = b then v else f x y

/-- The defining formula of `res1`: `Y - beta_a*A - M*beta_m - C1*beta_c`. -/
def res1Spec (d : Dat) (s : St) (i : ℕ) : ℚ :=
  d.Y i - s.beta_a * d.A i - (∑ j ∈ Finset.range d.q, d.M j i * s.beta_m j)
    - (∑ j ∈ Finset.range d.w1, d.C1 j i * s.beta_c j)

/-- The defining formula of column `j` of `res2`:
`M[:,j] - A*alpha_a[j] - C2*alpha_c[:,j]`. -/
def res2Spec (d : Dat) (s : St) (j i : ℕ) : ℚ :=
  d.M j i - d.A i * s.alpha_a j - (∑ j1 ∈ Finset.range d.w2, d.C2 j1 i * s.alpha_c j1 j)

/-- The defining formula of column `j` of `res2_c`: `M[:,j] - C2*alpha_c[:,j]`. -/
def res2cSpec (d : Dat) (s : St) (j i : ℕ) : ℚ :=
  d.M j i - (∑ j1 ∈ Finset.range d.w2, d.C2 j1 i * s.alpha_c j1 j)

/-- The method `Variables::Residual`: full recomputation of the three residual
caches from the current parameter values. -/
def Residual (d : Dat) (s : St) : St :=
  { s with res1 := res1Spec d s, res2 := res2Spec d s, res2_c := res2cSpec d s }

/-- The residual caches agree pointwise with what `Residual` would
recompute from the current parameters. -/
def resConsistent (d : Dat) (s : St) : Prop :=
  (∀ i, s.res1 i = (Residual d s).res1 i) ∧
  (∀ j i, s.res2 j i = (Residual d s).res2 j i) ∧
  (∀ j i, s.res2_c j i = (Residual d s).res2_c j i)

/-- The quantity `mu_mj`: inner product of column `M[:,j]` with the
residual after adding back the own contribution of this coefficient. -/
def mu_m (d : Dat) (s : St) (j : ℕ) : ℚ :=
  ∑ i ∈ Finset.range d.n, d.M j i * (s.res1 i + d.M j i * s.beta_m j)

/-- The quantity `mu_mj0`: inactive-component posterior mean of `beta_m[j]`. -/
def mu_m0 (d : Dat) (s : St) (j : ℕ) : ℚ :=
  mu_m d s j / (s.sigma_e / s.sigma_m0 + M2norm d j)

/-- The quantity `mu_mj1`: active-component posterior mean of `beta_m[j]`. -/
def mu_m1 (d : Dat) (s : St) (j : ℕ) : ℚ :=
  mu_m d s j / (s.sigma_e / s.sigma_m1 + M2norm d j)

/-- The quantity `mu_alpha_aj`: inner product of `A` with column `j` of `res2_c`. -/
def mu_aa (d : Dat) (s : St) (j : ℕ) : ℚ :=
  ∑ i ∈ Finset.range d.n, d.A i * s.res2_c j i

/-- The quantity `mu_alpha_aj0`: inactive-component posterior mean of `alpha_a[j]`. -/
def mu_aa0 (d : Dat) (s : St) (j : ℕ) : ℚ :=
  mu_aa d s j * (s.var_alpha_a0 / s.sigma_g)

/-- The quantity `mu_alpha_aj1`: active-component posterior mean of `alpha_a[j]`. -/
def mu_aa1 (d : Dat) (s : St) (j : ℕ) : ℚ :=
  mu_aa d s j * (s.var_alpha_a1 / s.sigma_g)

/-- The quantity `const2`: the log-odds driving the update of `r1[j]`. -/
def logOdds1 (env : Env) (d : Dat) (s : St) (j : ℕ) : ℚ :=
  mu_m1 d s j * mu_m1 d s j / (2 * s.var_m1 j)
    - mu_m0 d s j * mu_m0 d s j / (2 * s.var_m0 j)
    + (1/2) * env.logf (s.var_m1 j / s.sigma_m1)
    - (1/2) * env.logf (s.var_m0 j / s.sigma_m0)
    + env.logf (s.pi_m j / (1 - s.pi_m j))

/-- The quantity `const5`: the log-odds driving the update of `r3[j]`. -/
def logOdds3 (env : Env) (d : Dat) (s : St) (j : ℕ) : ℚ :=
  mu_aa1 d s j * mu_aa1 d s j / (2 * s.var_alpha_a1)
    - mu_aa0 d s j * mu_aa0 d s j / (2 * s.var_alpha_a0)
    + (1/2) * env.logf (s.var_alpha_a1 / s.sigma_ma1)
    - (1/2) * env.logf (s.var_alpha_a0 / s.sigma_ma0)
    + env.logf (s.pi_a j / (1 - s.pi_a j))

/-- The indicator update policy: below the threshold `300`, a Bernoulli
draw with success probability `exp(logOdds)/(1+exp(logOdds))`; at or
above it, deterministically `1`. -/
def indicatorDraw (env : Env) (lo u : ℚ) : ℚ :=
  if lo < 300 then (if bernd (env.exf lo / (1 + env.exf lo)) u then 1 else 0) else 1

/-- Number of raw stream values the indicator update consumes. -/
def indicatorSteps (lo : ℚ) : ℕ := if lo < 300 then 1 else 0

/-- The state writes of the mediator-`j` block before the nested
`alpha_c` loop: new `beta_m[j]`, `alpha_a[j]`, `r1[j]`, `r3[j]`, the
incremental residual adjustments, and the new stream position. -/
def medWrite (d : Dat) (s : St) (j : ℕ) (bm aa r1v r3v : ℚ) (c : ℕ) : St :=
  { s with
    beta_m := Function.update s.beta_m j bm,
    alpha_a := Function.update s.alpha_a j aa,
    r1 := Function.update s.r1 j r1v,
    r3 := Function.update s.r3 j r3v,
    res1 := fun i => s.res1 i + (s.beta_m j - bm) * d.M j i,
    res2 := fun a b => if a = j then s.res2 a b + (s.alpha_a j - aa) * d.A b else s.res2 a b,
    cnt := c }

/-- The mediator-`j` block of `Variables::Iteration` up to (and
excluding) the nested covariate loop: draw both component candidates
for `beta_m[j]` and `alpha_a[j]`, mix by the current indicator, adjust
`res1` and column `j` of `res2`, then update both indicators. -/
def medCore (env : Env) (ω : ℕ → ℚ) (d : Dat) (s : St) (j : ℕ) : St :=
  medWrite d s j
    (s.r1 j * normald (mu_m1 d s j) (env.sqrtf (s.var_m1 j)) (ω s.cnt)
      + (1 - s.r1 j) * normald (mu_m0 d s j) (env.sqrtf (s.var_m0 j)) (ω (s.cnt + 1)))
    (s.r3 j * normald (mu_aa1 d s j) (env.sqrtf s.var_alpha_a1) (ω (s.cnt + 2))
      + (1 - s.r3 j) * normald (mu_aa0 d s j) (env.sqrtf s.var_alpha_a0) (ω (s.cnt + 3)))
    (indicatorDraw env (logOdds1 env d s j) (ω (s.cnt + 4)))
    (indicatorDraw env (logOdds3 env d s j)
      (ω (s.cnt + 4 + indicatorSteps (logOdds1 env d s j))))
    (s.cnt + 4 + indicatorSteps (logOdds1 env d s j) + indicatorSteps (logOdds3 env d s j))

/-- The state writes of one `alpha_c(j1, j)` update: the new entry, the
incremental adjustment of column `j` of `res2` and `res2_c`, and the new
stream position. -/
def alphaCWrite (d : Dat) (j : ℕ) (s : St) (j1 : ℕ) (nc : ℚ) (c : ℕ) : St :=
  { s with
    alpha_c := upd2 s.alpha_c j1 j nc,
    res2 := fun a b => if a = j then s.res2 a b + (s.alpha_c j1 j - nc) * d.C2 j1 b
            else s.res2 a b,
    res2_c := fun a b => if a = j then s.res2_c a b + (s.alpha_c j1 j - nc) * d.C2 j1 b
              else s.res2_c a b,
    cnt := c }

/-- One `alpha_c(j1, j)` update: conjugate posterior mean from column
`C2[:,j1]` against column `j` of `res2` with the own contribution added
back, one normal draw, then the residual deltas. -/
def alphaCUpdate (env : Env) (ω : ℕ → ℚ) (d : Dat) (j : ℕ) (s : St) (j1 : ℕ) : St :=
  alphaCWrite d j s j1
    (normald
      ((∑ i ∈ Finset.range d.n, d.C2 j1 i * (s.res2 j i + s.alpha_c j1 j * d.C2 j1 i))
        / C2_2norm d j1)
      (env.sqrtf (s.sigma_g / C2_2norm d j1)) (ω s.cnt))
    (s.cnt + 1)

/-- The whole mediator-`j` block: the core writes followed by the nested
loop over the `w2` mediator-stage covariates. -/
def medUpdate (env : Env) (ω : ℕ → ℚ) (d : Dat) (s : St) (j : ℕ) : St :=
  (List.range d.w2).foldl (alphaCUpdate env ω d j) (medCore env ω d s j)

/-- One pass of the inner row loop of the `beta_c[j]` update, exactly as
written in the source: the running mean accumulates one term, is divided
by the squared norm, and `beta_c[j]` is redrawn — all inside the loop
over rows, so the draw happens `n` times per coefficient.  The
accumulator carries (running mean, current `beta_c[j]`, stream position). -/
def betaCInner (env : Env) (ω : ℕ → ℚ) (d : Dat) (r : ℕ → ℚ) (se : ℚ) (j : ℕ)
    (acc : ℚ × ℚ × ℕ) (i : ℕ) : ℚ × ℚ × ℕ :=
  ((acc.1 + d.C1 j i * (r i + d.C1 j i * acc.2.1)) / C1_2norm d j,
   normald ((acc.1 + d.C1 j i * (r i + d.C1 j i * acc.2.1)) / C1_2norm d j)
     (env.sqrtf (se / C1_2norm d j)) (ω acc.2.2),
   acc.2.2 + 1)

/-- The state writes of the `beta_c[j]` block: the final drawn value and
the single residual delta against the pre-block value. -/
def betaCWrite (d : Dat) (s : St) (j : ℕ) (bc : ℚ) (c : ℕ) : St :=
  { s with
    beta_c := Function.update s.beta_c j bc,
    res1 := fun i => s.res1 i + (s.beta_c j - bc) * d.C1 j i,
    cnt := c }

/-- The `beta_c[j]` block of `Variables::Iteration`: the (misbraced)
inner row loop, then the residual delta using the pre-block old value
and the last drawn value. -/
def betaCUpdate (env : Env) (ω : ℕ → ℚ) (d : Dat) (s : St) (j : ℕ) : St :=
  betaCWrite d s j
    ((List.range d.n).foldl (betaCInner env ω d s.res1 s.sigma_e j) (0, s.beta_c j, s.cnt)).2.1
    ((List.range d.n).foldl (betaCInner env ω d s.res1 s.sigma_e j) (0, s.beta_c j, s.cnt)).2.2

/-- The `beta_a` update: conjugate posterior mean over `A` against
`res1` with the own contribution added back, one normal draw, the
residual delta. -/
def betaAUpdate (env : Env) (ω : ℕ → ℚ) (d : Dat) (s : St) : St :=
  { s with
    beta_a := normald
      ((∑ i ∈ Finset.range d.n, d.A i * (s.res1 i + s.beta_a * d.A i)) * (s.var_a / s.sigma_e))
      (env.sqrtf s.var_a) (ω s.cnt),
    res1 := fun i => s.res1 i +
      (s.beta_a - normald
        ((∑ i ∈ Finset.range d.n, d.A i * (s.res1 i + s.beta_a * d.A i)) * (s.var_a / s.sigma_e))
        (env.sqrtf s.var_a) (ω s.cnt)) * d.A i,
    cnt := s.cnt + 1 }

/-- The opening phase of `Variables::Iteration`: fill `var_m0/var_m1`
from the current variance components, redraw `sigma_e` and `sigma_g`
from their inverse-gamma full conditionals, then fill `var_alpha_a0`,
`var_alpha_a1` and `var_a` from the freshly drawn noise variances. -/
def varPhase (env : Env) (ω : ℕ → ℚ) (d : Dat) (s : St) : St :=
  { s with
    var_m0 := fun j => 1 / (1 / s.sigma_m0 + M2norm d j / s.sigma_e),
    var_m1 := fun j => 1 / (1 / s.sigma_m1 + M2norm d j / s.sigma_e),
    sigma_e := 1 / env.gamf (ke + (d.n : ℚ) / 2)
      (1 / ((∑ i ∈ Finset.range d.n, s.res1 i * s.res1 i) / 2 + le)) (ω s.cnt),
    sigma_g := 1 / env.gamf ((d.q : ℚ) * ((d.n : ℚ) / 2) + kg)
      (1 / ((∑ i ∈ Finset.range (d.n * d.q), s.res2 (i / d.n) (i % d.n)
              * s.res2 (i / d.n) (i % d.n)) / 2 + lg)) (ω (s.cnt + 1)),
    var_alpha_a0 :=
      (1 / env.gamf ((d.q : ℚ) * ((d.n : ℚ) / 2) + kg)
        (1 / ((∑ i ∈ Finset.range (d.n * d.q), s.res2 (i / d.n) (i % d.n)
                * s.res2 (i / d.n) (i % d.n)) / 2 + lg)) (ω (s.cnt + 1))) /
      ((1 / env.gamf ((d.q : ℚ) * ((d.n : ℚ) / 2) + kg)
        (1 / ((∑ i ∈ Finset.range (d.n * d.q), s.res2 (i / d.n) (i % d.n)
                * s.res2 (i / d.n) (i % d.n)) / 2 + lg)) (ω (s.cnt + 1))) / s.sigma_ma0
        + A2norm d),
    var_alpha_a1 :=
      (1 / env.gamf ((d.q : ℚ) * ((d.n : ℚ) / 2) + kg)
        (1 / ((∑ i ∈ Finset.range (d.n * d.q), s.res2 (i / d.n) (i % d.n)
                * s.res2 (i / d.n) (i % d.n)) / 2 + lg)) (ω (s.cnt + 1))) /
      ((1 / env.gamf ((d.q : ℚ) * ((d.n : ℚ) / 2) + kg)
        (1 / ((∑ i ∈ Finset.range (d.n * d.q), s.res2 (i / d.n) (i % d.n)
                * s.res2 (i / d.n) (i % d.n)) / 2 + lg)) (ω (s.cnt + 1))) / s.sigma_ma1
        + A2norm d),
    var_a :=
      (1 / env.gamf (ke + (d.n : ℚ) / 2)
        (1 / ((∑ i ∈ Finset.range d.n, s.res1 i * s.res1 i) / 2 + le)) (ω s.cnt)) /
      ((1 / env.gamf (ke + (d.n : ℚ) / 2)
        (1 / ((∑ i ∈ Finset.range d.n, s.res1 i * s.res1 i) / 2 + le)) (ω s.cnt)) / s.sigma_a
        + A2norm d),
    cnt := s.cnt + 2 }

/-- The component-variance phase: redraw `sigma_m1`, `sigma_a`,
`sigma_ma1` from the indicator-1 sums, then `sigma_m0`, `sigma_ma0`
from the indicator-0 sums, in the order of the source. -/
def sigma2Phase (env : Env) (ω : ℕ → ℚ) (d : Dat) (s : St) : St :=
  { s with
    sigma_m1 := 1 / env.gamf ((∑ j ∈ Finset.range d.q, s.r1 j) / 2 + km1)
      (1 / ((∑ j ∈ Finset.range d.q, s.beta_m j * s.beta_m j * s.r1 j) / 2 + lm1)) (ω s.cnt),
    sigma_a := 1 / env.gamf (1/2 + ka)
      (1 / (s.beta_a * s.beta_a / 2 + la)) (ω (s.cnt + 1)),
    sigma_ma1 := 1 / env.gamf ((∑ j ∈ Finset.range d.q, s.r3 j) / 2 + kma1)
      (1 / ((∑ j ∈ Finset.range d.q, s.alpha_a j * s.alpha_a j * s.r3 j) / 2 + lma1))
      (ω (s.cnt + 2)),
    sigma_m0 := 1 / env.gamf ((∑ j ∈ Finset.range d.q, (1 - s.r1 j)) / 2 + km0)
      (1 / ((∑ j ∈ Finset.range d.q, s.beta_m j * s.beta_m j * (1 - s.r1 j)) / 2 + lm0))
      (ω (s.cnt + 3)),
    sigma_ma0 := 1 / env.gamf ((∑ j ∈ Finset.range d.q, (1 - s.r3 j)) / 2 + kma0)
      (1 / ((∑ j ∈ Finset.range d.q, s.alpha_a j * s.alpha_a j * (1 - s.r3 j)) / 2 + lma0))
      (ω (s.cnt + 4)),
    cnt := s.cnt + 5 }

/-- The method `Variables::PostDistribution1`: Bernoulli log-likelihood of the
`r1` indicators under inclusion probabilities `p`. -/
def PostDistribution1 (env : Env) (d : Dat) (s : St) (p : ℕ → ℚ) : ℚ :=
  ∑ j ∈ Finset.range d.q, (env.logf (p j) * s.r1 j + env.logf (1 - p j) * (1 - s.r1 j))

/-- The method `Variables::PostDistribution2`: Bernoulli log-likelihood of the
`r3` indicators under inclusion probabilities `p`. -/
def PostDistribution2 (env : Env) (d : Dat) (s : St) (p : ℕ → ℚ) : ℚ :=
  ∑ j ∈ Finset.range d.q, (env.logf (p j) * s.r3 j + env.logf (1 - p j) * (1 - s.r3 j))

/-- The absolute value and the first clamp of the proposal: values
above `1` are replaced by their reciprocal. -/
def stepOne {K : Type} [LinearOrderedField K] (v : K) : K :=
  if 1 < |v| then 1 / |v| else |v|

/-- The second clamp: values below `1/q` are replaced by `1/(q*q*value)`. -/
def stepTwo {K : Type} [LinearOrderedField K] (q : ℕ) (w : K) : K :=
  if w < 1 / (q : K) then 1 / ((q : K) * (q : K) * w) else w

/-- The complete reflection rule applied to a proposed value. -/
def reflect {K : Type} [LinearOrderedField K] (q : ℕ) (v : K) : K :=
  stepTwo q (stepOne v)

/-- The proposed `my_pi_m[j]`. -/
def propM (env : Env) (ω : ℕ → ℚ) (d : Dat) (s : St) (j : ℕ) : ℚ :=
  reflect d.q (s.pi_m j * env.exf (unifd (-(1/100)) (1/100) (ω (s.cnt + j))))

/-- The proposed `my_pi_a[j]`. -/
def propA (env : Env) (ω : ℕ → ℚ) (d : Dat) (s : St) (j : ℕ) : ℚ :=
  reflect d.q (s.pi_a j * env.exf (unifd (-(1/100)) (1/100) (ω (s.cnt + d.q + j))))

/-- The quantity `probab`: the joint Metropolis log-ratio over both proposal vectors. -/
def logRat (env : Env) (ω : ℕ → ℚ) (d : Dat) (s : St) : ℚ :=
  PostDistribution2 env d s (propA env ω d s)
    - PostDistribution2 env d s s.pi_a
    + PostDistribution1 env d s (propM env ω d s)
    - PostDistribution1 env d s s.pi_m

/-- The uniform variate compared against in the Metropolis test. -/
def acceptU (ω : ℕ → ℚ) (d : Dat) (s : St) : ℚ := unifd 0 1 (ω (s.cnt + 2 * d.q))

/-- The adaptive-prior phase: propose both vectors by the multiplicative
walk with reflection, compute the joint log-ratio, and overwrite both
`pi_m` and `pi_a` (entries below `q`) iff it exceeds the log of one
uniform draw. -/
def adaptivePhase (env : Env) (ω : ℕ → ℚ) (d : Dat) (s : St) : St :=
  { s with
    pi_m := fun j =>
      if logRat env ω d s > env.logf (acceptU ω d s) ∧ j < d.q then propM env ω d s j
      else s.pi_m j,
    pi_a := fun j =>
      if logRat env ω d s > env.logf (acceptU ω d s) ∧ j < d.q then propA env ω d s j
      else s.pi_a j,
    cnt := s.cnt + 2 * d.q + 1 }

/-- Observable side effects of one call to `Variables::Iteration`. -/
inductive Event where
  | srandCall (seed : ℕ)
  | printSigmas (vals : List ℚ)
  | printIter (it : ℕ)
  | appendRow (fname : String) (row : List ℚ)
deriving DecidableEq

/-- The output file name, derived from the mediator count. -/
def outFileName (q : ℕ) : String := "results_" ++ toString q ++ ".txt"

/-- One output row: for each mediator `j` in order `beta_m[j]`,
`pi_m[j]`, `alpha_a[j]`, `pi_a[j]`, then the scalar `beta_a`. -/
def rowOf (d : Dat) (s : St) : List ℚ :=
  ((List.range d.q).flatMap fun j => [s.beta_m j, s.pi_m j, s.alpha_a j, s.pi_a j]) ++ [s.beta_a]

/-- The state produced by one call of `Variables::Iteration`. -/
def IterationState (env : Env) (ω : ℕ → ℚ) (d : Dat) (it : ℕ) (s : St) : St :=
  adaptivePhase env ω d
    (sigma2Phase env ω d
      (betaAUpdate env ω d
        ((List.range d.w1).foldl (betaCUpdate env ω d)
          ((List.range d.q).foldl (medUpdate env ω d)
            (varPhase env ω d (if it = 0 then Residual d s else s))))))

/-- The method `Variables::Iteration(burnIn, it)`: the new state together with the
ordered list of its externally observable effects. -/
def Iteration (env : Env) (ω : ℕ → ℚ) (d : Dat) (burnIn it : ℕ) (s : St) :
    St × List Event :=
  (IterationState env ω d it s,
    [Event.srandCall it]
      ++ (if it % 10000 = 0 then
            [Event.printSigmas [s.sigma_m0, s.sigma_e, s.sigma_g, s.sigma_ma0,
              s.sigma_m1, s.sigma_a, s.sigma_ma1]] else [])
      ++ (if it % 1000 = 0 then [Event.printIter it] else [])
      ++ (if burnIn < it ∧ it % 10 = 0 then
            [Event.appendRow (outFileName d.q) (rowOf d (IterationState env ω d it s))]
          else []))

/-- The constructor `Variables::Variables`: one prior draw for each of
the seven variance components, zero indicators and covariate
coefficients, and the hard-coded initial `beta_a`. -/
def initSt (env : Env) (ω : ℕ → ℚ) (bm0 aa0 pm0 pa0 : ℕ → ℚ) : St :=
  { beta_a := 135567741 / 10 ^ 10
    beta_m := bm0
    alpha_a := aa0
    beta_c := fun _ => 0
    alpha_c := fun _ _ => 0
    r1 := fun _ => 0
    r3 := fun _ => 0
    pi_m := pm0
    pi_a := pa0
    sigma_m0 := 1 / env.gamf km0 (1 / lm0) (ω 0)
    sigma_m1 := 1 / env.gamf km1 (1 / lm1) (ω 1)
    sigma_a := 1 / env.gamf ka (1 / la) (ω 2)
    sigma_ma0 := 1 / env.gamf kma0 (1 / lma0) (ω 3)
    sigma_ma1 := 1 / env.gamf kma1 (1 / lma1) (ω 4)
    sigma_g := 1 / env.gamf kg (1 / lg) (ω 5)
    sigma_e := 1 / env.gamf ke (1 / le) (ω 6)
    res1 := fun _ => 0
    res2 := fun _ _ => 0
    res2_c := fun _ _ => 0
    var_m0 := fun _ => 0
    var_m1 := fun _ => 0
    var_alpha_a0 := 0
    var_alpha_a1 := 0
    var_a := 0
    cnt := 7 }

/-- The state after `k` iterations of the driver `mcmc`, which
constructs the model and calls `Iteration(burnIn, it)` for
`it = 0, 1, ...`. -/
def chainState (env : Env) (ω : ℕ → ℚ) (d : Dat) (bm0 aa0 pm0 pa0 : ℕ → ℚ)
    (burnIn : ℕ) : ℕ → St
  | 0 => initSt env ω bm0 aa0 pm0 pa0
  | k + 1 =>
    (Iteration env ω d burnIn k (chainState env ω d bm0 aa0 pm0 pa0 burnIn k)).1

/-- Recognise a Result-Sink append among the observable effects. -/
def isAppendB : Event → Bool
  | Event.appendRow _ _ => true
  | _ => false

/-- The update the specification prescribes for `beta_c[j]`: a single
normal draw whose mean is the complete inner product of column
`C1[:,j]` with the residual plus the add-back of the single pre-update
value, divided by the squared norm of the column. -/
def betaCSingleDraw (env : Env) (ω : ℕ → ℚ) (d : Dat) (s : St) (j : ℕ) : ℚ :=
  normald
    ((∑ i ∈ Finset.range d.n, d.C1 j i * (s.res1 i + d.C1 j i * s.beta_c j)) / C1_2norm d j)
    (env.sqrtf (s.sigma_e / C1_2norm d j)) (ω s.cnt)

/-- The proposal map of the adaptive prior over the reals, with the
genuine exponential: `|pi * exp eps|` followed by the reflection rule. -/
noncomputable def piStep (q : ℕ) (p eps : ℝ) : ℝ := reflect q (p * Real.exp eps)

/-- A concrete environment for evaluating the embedding at specific
inputs: identity transcendentals and a constant Gamma routine. -/
def cEnv : Env :=
  { gamf := fun _ _ _ => 1, exf := fun x => x, logf := fun x => x, sqrtf := fun x => x }

/-- A concrete environment whose logarithm is constantly `-1`. -/
def cEnvL : Env :=
  { gamf := fun _ _ _ => 1, exf := fun _ => 1, logf := fun _ => -1, sqrtf := fun _ => 0 }

/-- The all-zero random stream. -/
def cOmega : ℕ → ℚ := fun _ => 0

/-- A dataset with all dimensions zero. -/
def dZero : Dat :=
  { n := 0, q := 0, w1 := 0, w2 := 0, Y := fun _ => 0, A := fun _ => 0,
    M := fun _ _ => 0, C1 := fun _ _ => 0, C2 := fun _ _ => 0 }

/-- A dataset with one mediator and no rows or covariates. -/
def dOne : Dat :=
  { n := 0, q := 1, w1 := 0, w2 := 0, Y := fun _ => 0, A := fun _ => 0,
    M := fun _ _ => 0, C1 := fun _ _ => 0, C2 := fun _ _ => 0 }

/-- A dataset with two rows and one outcome-stage covariate column
`(2, 1)`, exercising the `beta_c` block. -/
def dC3 : Dat :=
  { n := 2, q := 0, w1 := 1, w2 := 0, Y := fun _ => 0, A := fun _ => 0,
    M := fun _ _ => 0,
    C1 := fun j i => if j = 0 then (if i = 0 then 2 else if i = 1 then 1 else 0) else 0,
    C2 := fun _ _ => 0 }

/-- An all-zero state. -/
def sZero : St :=
  { beta_a := 0, beta_m := fun _ => 0, alpha_a := fun _ => 0, beta_c := fun _ => 0,
    alpha_c := fun _ _ => 0, r1 := fun _ => 0, r3 := fun _ => 0, pi_m := fun _ => 0,
    pi_a := fun _ => 0, sigma_m0 := 0, sigma_m1 := 0, sigma_a := 0, sigma_ma0 := 0,
    sigma_ma1 := 0, sigma_g := 0, sigma_e := 0, res1 := fun _ => 0, res2 := fun _ _ => 0,
    res2_c := fun _ _ => 0, var_m0 := fun _ => 0, var_m1 := fun _ => 0,
    var_alpha_a0 := 0, var_alpha_a1 := 0, var_a := 0, cnt := 0 }

/-- A state with inclusion probabilities one half. -/
def sHalf : St := { sZero with pi_m := fun _ => 1/2, pi_a := fun _ => 1/2 }

/-- A state with unit residuals and unit outcome noise. -/
def sC3 : St := { sZero with res1 := fun _ => 1, sigma_e := 1 }

/-- Summing a product against a pointwise-updated vector shifts the sum
by the change at the updated index. -/
lemma sum_mul_update (m j : ℕ) (hj : j < m) (g f : ℕ → ℚ) (v : ℚ) :
    ∑ x ∈ Finset.range m, g x * Function.update f j v x
      = (∑ x ∈ Finset.range m, g x * f x) + g j * (v - f j) := by
  have h : ∀ x ∈ Finset.range m, g x * Function.update f j v x
      = g x * f x + (if x = j then g j * (v - f j) else 0) := by
    intro x _
    by_cases hxj : x = j
    · subst hxj; rw [Function.update_same, if_pos rfl]; ring
    · rw [Function.update_noteq hxj, if_neg hxj, add_zero]
  rw [Finset.sum_congr rfl h, Finset.sum_add_distrib,
    Finset.sum_ite_eq' (Finset.range m) j fun _ => g j * (v - f j),
    if_pos (Finset.mem_range.mpr hj)]

/-- Summing a product against column `b` of a table updated at `(a, b)`
shifts the sum by the change at row `a`. -/
lemma sum_mul_upd2 (m a b : ℕ) (ha : a < m) (g : ℕ → ℚ) (f : ℕ → ℕ → ℚ) (v : ℚ) :
    ∑ x ∈ Finset.range m, g x * upd2 f a b v x b
      = (∑ x ∈ Finset.range m, g x * f x b) + g a * (v - f a b) := by
  have h : ∀ x ∈ Finset.range m, g x * upd2 f a b v x b
      = g x * f x b + (if x = a then g a * (v - f a b) else 0) := by
    intro x _
    by_cases hxa : x = a
    · subst hxa
      have hv : upd2 f x b v x b = v := by simp [upd2]
      rw [hv, if_pos rfl]; ring
    · have hv : upd2 f a b v x b = f x b := by simp [upd2, hxa]
      rw [hv, if_neg hxa, add_zero]
  rw [Finset.sum_congr rfl h, Finset.sum_add_distrib,
    Finset.sum_ite_eq' (Finset.range m) a fun _ => g a * (v - f a b),
    if_pos (Finset.mem_range.mpr ha)]

/-- A column other than the written one is unchanged by `upd2`. -/
lemma sum_mul_upd2_other (m a b y : ℕ) (hy : y ≠ b) (g : ℕ → ℚ) (f : ℕ → ℕ → ℚ) (v : ℚ) :
    ∑ x ∈ Finset.range m, g x * upd2 f a b v x y
      = ∑ x ∈ Finset.range m, g x * f x y := by
  refine Finset.sum_congr rfl fun x _ => ?_
  simp only [upd2, hy, and_false, if_false]

/-- Applying `Residual` establishes residual consistency for any state. -/
lemma residual_consistent (d : Dat) (s : St) : resConsistent d (Residual d s) :=
  ⟨fun _ => rfl, fun _ _ => rfl, fun _ _ => rfl⟩

/-- The `res1` cache written by `Residual` is the defining formula. -/
lemma Residual_res1 (d : Dat) (s : St) (i : ℕ) :
    (Residual d s).res1 i = res1Spec d s i := rfl

/-- The `res2` cache written by `Residual` is the defining formula. -/
lemma Residual_res2 (d : Dat) (s : St) (j i : ℕ) :
    (Residual d s).res2 j i = res2Spec d s j i := rfl

/-- The `res2_c` cache written by `Residual` is the defining formula. -/
lemma Residual_res2c (d : Dat) (s : St) (j i : ℕ) :
    (Residual d s).res2_c j i = res2cSpec d s j i := rfl

/-- The mediator-block writes preserve residual consistency, for any
drawn values: the deltas applied to `res1` and `res2` match the effect
of the coefficient changes exactly. -/
lemma medWrite_consistent (d : Dat) (s : St) (j : ℕ) (bm aa r1v r3v : ℚ) (c : ℕ)
    (hj : j < d.q) (h : resConsistent d s) :
    resConsistent d (medWrite d s j bm aa r1v r3v c) := by
  obtain ⟨h1, h2, h3⟩ := h
  refine ⟨fun i => ?_, fun a b => ?_, fun a b => ?_⟩
  · show s.res1 i + (s.beta_m j - bm) * d.M j i = res1Spec d (medWrite d s j bm aa r1v r3v c) i
    have hs : res1Spec d (medWrite d s j bm aa r1v r3v c) i
        = d.Y i - s.beta_a * d.A i
          - (∑ x ∈ Finset.range d.q, d.M x i * Function.update s.beta_m j bm x)
          - (∑ x ∈ Finset.range d.w1, d.C1 x i * s.beta_c x) := rfl
    rw [hs, sum_mul_update d.q j hj (fun x => d.M x i) s.beta_m bm, h1 i, Residual_res1]
    unfold res1Spec
    ring
  · show (if a = j then s.res2 a b + (s.alpha_a j - aa) * d.A b else s.res2 a b)
      = res2Spec d (medWrite d s j bm aa r1v r3v c) a b
    have hs : res2Spec d (medWrite d s j bm aa r1v r3v c) a b
        = d.M a b - d.A b * Function.update s.alpha_a j aa a
          - (∑ j1 ∈ Finset.range d.w2, d.C2 j1 b * s.alpha_c j1 a) := rfl
    by_cases hab : a = j
    · subst hab
      rw [if_pos rfl, hs, Function.update_same, h2 a b, Residual_res2]
      unfold res2Spec
      ring
    · rw [if_neg hab, hs, Function.update_noteq hab, h2 a b, Residual_res2]
      rfl
  · show s.res2_c a b = res2cSpec d (medWrite d s j bm aa r1v r3v c) a b
    exact h3 a b

/-- The `alpha_c(j1, j)` writes preserve residual consistency. -/
lemma alphaCWrite_consistent (d : Dat) (j : ℕ) (s : St) (j1 : ℕ) (nc : ℚ) (c : ℕ)
    (hj1 : j1 < d.w2) (h : resConsistent d s) :
    resConsistent d (alphaCWrite d j s j1 nc c) := by
  obtain ⟨h1, h2, h3⟩ := h
  refine ⟨fun i => h1 i, fun a b => ?_, fun a b => ?_⟩
  · show (if a = j then s.res2 a b + (s.alpha_c j1 j - nc) * d.C2 j1 b else s.res2 a b)
      = res2Spec d (alphaCWrite d j s j1 nc c) a b
    have hs : res2Spec d (alphaCWrite d j s j1 nc c) a b
        = d.M a b - d.A b * s.alpha_a a
          - (∑ x ∈ Finset.range d.w2, d.C2 x b * upd2 s.alpha_c j1 j nc x a) := rfl
    by_cases hab : a = j
    · subst hab
      rw [if_pos rfl, hs, sum_mul_upd2 d.w2 j1 a hj1 (fun x => d.C2 x b) s.alpha_c nc,
        h2 a b, Residual_res2]
      unfold res2Spec
      ring
    · rw [if_neg hab, hs,
        sum_mul_upd2_other d.w2 j1 j a hab (fun x => d.C2 x b) s.alpha_c nc, h2 a b,
        Residual_res2]
      rfl
  · show (if a = j then s.res2_c a b + (s.alpha_c j1 j - nc) * d.C2 j1 b else s.res2_c a b)
      = res2cSpec d (alphaCWrite d j s j1 nc c) a b
    have hs : res2cSpec d (alphaCWrite d j s j1 nc c) a b
        = d.M a b - (∑ x ∈ Finset.range d.w2, d.C2 x b * upd2 s.alpha_c j1 j nc x a) := rfl
    by_cases hab : a = j
    · subst hab
      rw [if_pos rfl, hs, sum_mul_upd2 d.w2 j1 a hj1 (fun x => d.C2 x b) s.alpha_c nc,
        h3 a b, Residual_res2c]
      unfold res2cSpec
      ring
    · rw [if_neg hab, hs,
        sum_mul_upd2_other d.w2 j1 j a hab (fun x => d.C2 x b) s.alpha_c nc, h3 a b,
        Residual_res2c]
      rfl

/-- The `beta_c[j]` writes preserve residual consistency, for any drawn
value. -/
lemma betaCWrite_consistent (d : Dat) (s : St) (j : ℕ) (bc : ℚ) (c : ℕ)
    (hj : j < d.w1) (h : resConsistent d s) :
    resConsistent d (betaCWrite d s j bc c) := by
  obtain ⟨h1, h2, h3⟩ := h
  refine ⟨fun i => ?_, fun a b => h2 a b, fun a b => h3 a b⟩
  show s.res1 i + (s.beta_c j - bc) * d.C1 j i = res1Spec d (betaCWrite d s j bc c) i
  have hs : res1Spec d (betaCWrite d s j bc c) i
      = d.Y i - s.beta_a * d.A i - (∑ x ∈ Finset.range d.q, d.M x i * s.beta_m x)
        - (∑ x ∈ Finset.range d.w1, d.C1 x i * Function.update s.beta_c j bc x) := rfl
  rw [hs, sum_mul_update d.w1 j hj (fun x => d.C1 x i) s.beta_c bc, h1 i, Residual_res1]
  unfold res1Spec
  ring

/-- The `beta_a` update preserves residual consistency. -/
lemma betaAUpdate_consistent (env : Env) (ω : ℕ → ℚ) (d : Dat) (s : St)
    (h : resConsistent d s) : resConsistent d (betaAUpdate env ω d s) := by
  obtain ⟨h1, h2, h3⟩ := h
  refine ⟨fun i => ?_, fun a b => h2 a b, fun a b => h3 a b⟩
  set na := normald
    ((∑ i ∈ Finset.range d.n, d.A i * (s.res1 i + s.beta_a * d.A i)) * (s.var_a / s.sigma_e))
    (env.sqrtf s.var_a) (ω s.cnt) with hna
  show s.res1 i + (s.beta_a - na) * d.A i = res1Spec d (betaAUpdate env ω d s) i
  have hs : res1Spec d (betaAUpdate env ω d s) i
      = d.Y i - na * d.A i - (∑ x ∈ Finset.range d.q, d.M x i * s.beta_m x)
        - (∑ x ∈ Finset.range d.w1, d.C1 x i * s.beta_c x) := rfl
  rw [hs, h1 i, Residual_res1]
  unfold res1Spec
  ring

/-- Folding a consistency-preserving step over a list preserves
consistency. -/
lemma foldl_consistent {α : Type} (d : Dat) (f : St → α → St) (l : List α)
    (hf : ∀ t a, a ∈ l → resConsistent d t → resConsistent d (f t a)) (s : St)
    (hs : resConsistent d s) : resConsistent d (l.foldl f s) := by
  induction l generalizing s with
  | nil => exact hs
  | cons a t ih =>
    exact ih (fun u b hb hu => hf u b (List.mem_cons_of_mem a hb) hu) (f s a)
      (hf s a (List.mem_cons_self a t) hs)

/-- The whole mediator block preserves residual consistency. -/
lemma medUpdate_consistent (env : Env) (ω : ℕ → ℚ) (d : Dat) (s : St) (j : ℕ)
    (hj : j < d.q) (h : resConsistent d s) : resConsistent d (medUpdate env ω d s j) := by
  unfold medUpdate
  refine foldl_consistent d _ _ (fun t a ha ht => ?_) _ ?_
  · exact alphaCWrite_consistent d j t a _ _ (List.mem_range.mp ha) ht
  · exact medWrite_consistent d s j _ _ _ _ _ hj h

/-- Phase `varPhase` changes no coefficient and no residual cache. -/
lemma varPhase_consistent (env : Env) (ω : ℕ → ℚ) (d : Dat) (s : St)
    (h : resConsistent d s) : resConsistent d (varPhase env ω d s) := h

/-- Phase `sigma2Phase` changes no coefficient and no residual cache. -/
lemma sigma2Phase_consistent (env : Env) (ω : ℕ → ℚ) (d : Dat) (s : St)
    (h : resConsistent d s) : resConsistent d (sigma2Phase env ω d s) := h

/-- Phase `adaptivePhase` changes no coefficient and no residual cache. -/
lemma adaptivePhase_consistent (env : Env) (ω : ℕ → ℚ) (d : Dat) (s : St)
    (h : resConsistent d s) : resConsistent d (adaptivePhase env ω d s) := h

/-- One full `Iteration` establishes (at iteration 0) or preserves
residual consistency. -/
lemma IterationState_consistent (env : Env) (ω : ℕ → ℚ) (d : Dat) (it : ℕ) (s : St)
    (h : it = 0 ∨ resConsistent d s) : resConsistent d (IterationState env ω d it s) := by
  unfold IterationState
  have h0 : resConsistent d (if it = 0 then Residual d s else s) := by
    by_cases hit : it = 0
    · rw [if_pos hit]; exact residual_consistent d s
    · rw [if_neg hit]
      rcases h with h | h
      · exact absurd h hit
      · exact h
  refine adaptivePhase_consistent env ω d _ (sigma2Phase_consistent env ω d _
    (betaAUpdate_consistent env ω d _ ?_))
  refine foldl_consistent d _ _ (fun t a ha ht =>
    betaCWrite_consistent d t a _ _ (List.mem_range.mp ha) ht) _ ?_
  exact foldl_consistent d _ _ (fun t a ha ht =>
    medUpdate_consistent env ω d t a (List.mem_range.mp ha) ht) _
    (varPhase_consistent env ω d _ h0)

/-- The nested covariate loop never touches the indicator vectors. -/
lemma foldl_alphaC_frame (env : Env) (ω : ℕ → ℚ) (d : Dat) (j : ℕ) (l : List ℕ) (t : St) :
    (l.foldl (alphaCUpdate env ω d j) t).r1 = t.r1
    ∧ (l.foldl (alphaCUpdate env ω d j) t).r3 = t.r3 := by
  induction l generalizing t with
  | nil => exact ⟨rfl, rfl⟩
  | cons a tl ih => exact ⟨(ih (alphaCUpdate env ω d j t a)).1, (ih (alphaCUpdate env ω d j t a)).2⟩

/-- C1: for every mediator `j`, the block updates `r1[j]` from the
log-odds built from the active/inactive posterior means and variances of
`beta_m[j]`: below `300` a Bernoulli draw with success probability
`p/(1+p)`, `p = exp(logOdds)`; at or above `300` deterministically `1`;
and `r3[j]` follows the same rule with the association-model quantities
and `pi_a`. -/
theorem selection_rule (env : Env) (ω : ℕ → ℚ) (d : Dat) (s : St) (j : ℕ) :
    ((medUpdate env ω d s j).r1 j =
      (if logOdds1 env d s j < 300 then
        (if bernd (env.exf (logOdds1 env d s j) / (1 + env.exf (logOdds1 env d s j)))
            (ω (s.cnt + 4)) then (1 : ℚ) else 0)
       else 1))
    ∧ ((medUpdate env ω d s j).r3 j =
      (if logOdds3 env d s j < 300 then
        (if bernd (env.exf (logOdds3 env d s j) / (1 + env.exf (logOdds3 env d s j)))
            (ω (s.cnt + 4 + (if logOdds1 env d s j < 300 then 1 else 0))) then (1 : ℚ) else 0)
       else 1))
    ∧ logOdds1 env d s j
        = mu_m1 d s j * mu_m1 d s j / (2 * s.var_m1 j)
          - mu_m0 d s j * mu_m0 d s j / (2 * s.var_m0 j)
          + (1/2) * env.logf (s.var_m1 j / s.sigma_m1)
          - (1/2) * env.logf (s.var_m0 j / s.sigma_m0)
          + env.logf (s.pi_m j / (1 - s.pi_m j))
    ∧ logOdds3 env d s j
        = mu_aa1 d s j * mu_aa1 d s j / (2 * s.var_alpha_a1)
          - mu_aa0 d s j * mu_aa0 d s j / (2 * s.var_alpha_a0)
          + (1/2) * env.logf (s.var_alpha_a1 / s.sigma_ma1)
          - (1/2) * env.logf (s.var_alpha_a0 / s.sigma_ma0)
          + env.logf (s.pi_a j / (1 - s.pi_a j)) := by
  refine ⟨?_, ?_, rfl, rfl⟩
  · show ((List.range d.w2).foldl (alphaCUpdate env ω d j) (medCore env ω d s j)).r1 j = _
    rw [(foldl_alphaC_frame env ω d j (List.range d.w2) (medCore env ω d s j)).1]
    show Function.update s.r1 j (indicatorDraw env (logOdds1 env d s j) (ω (s.cnt + 4))) j = _
    rw [Function.update_same]
    rfl
  · show ((List.range d.w2).foldl (alphaCUpdate env ω d j) (medCore env ω d s j)).r3 j = _
    rw [(foldl_alphaC_frame env ω d j (List.range d.w2) (medCore env ω d s j)).2]
    show Function.update s.r3 j
      (indicatorDraw env (logOdds3 env d s j)
        (ω (s.cnt + 4 + indicatorSteps (logOdds1 env d s j)))) j = _
    rw [Function.update_same]
    rfl

/-- C2: after every iteration of the chain, the incrementally maintained
caches `res1`, `res2` and `res2_c` agree pointwise with what full
recomputation by `Residual` would produce from the current parameters:
every coefficient update adjusted the affected entries by exactly
`(old - new)` times the regressor column of the coefficient. -/
theorem chain_residual_consistent (env : Env) (ω : ℕ → ℚ) (d : Dat)
    (bm0 aa0 pm0 pa0 : ℕ → ℚ) (burnIn k : ℕ) :
    resConsistent d (chainState env ω d bm0 aa0 pm0 pa0 burnIn (k + 1)) := by
  induction k with
  | zero => exact IterationState_consistent env ω d 0 _ (Or.inl rfl)
  | succ k ih => exact IterationState_consistent env ω d (k + 1) _ (Or.inr ih)

/-- C4: the adaptive-prior step is a joint Metropolis update: the
log-ratio is the sum of the four Bernoulli log-likelihood terms over the
current indicators, and both `pi_m` and `pi_a` are overwritten with
their proposals iff it exceeds the log of the single uniform draw —
otherwise both are left unchanged, never one without the other. -/
theorem adaptive_joint_metropolis (env : Env) (ω : ℕ → ℚ) (d : Dat) (s : St) :
    (logRat env ω d s
      = (∑ j ∈ Finset.range d.q, (env.logf (propA env ω d s j) * s.r3 j
          + env.logf (1 - propA env ω d s j) * (1 - s.r3 j)))
        - (∑ j ∈ Finset.range d.q, (env.logf (s.pi_a j) * s.r3 j
          + env.logf (1 - s.pi_a j) * (1 - s.r3 j)))
        + (∑ j ∈ Finset.range d.q, (env.logf (propM env ω d s j) * s.r1 j
          + env.logf (1 - propM env ω d s j) * (1 - s.r1 j)))
        - (∑ j ∈ Finset.range d.q, (env.logf (s.pi_m j) * s.r1 j
          + env.logf (1 - s.pi_m j) * (1 - s.r1 j))))
  ∧ (logRat env ω d s > env.logf (acceptU ω d s) →
      ∀ j, j < d.q →
        (adaptivePhase env ω d s).pi_m j = propM env ω d s j
        ∧ (adaptivePhase env ω d s).pi_a j = propA env ω d s j)
  ∧ (¬ logRat env ω d s > env.logf (acceptU ω d s) →
      ∀ j, (adaptivePhase env ω d s).pi_m j = s.pi_m j
        ∧ (adaptivePhase env ω d s).pi_a j = s.pi_a j) := by
  refine ⟨rfl, fun h j hj => ⟨?_, ?_⟩, fun h j => ⟨?_, ?_⟩⟩
  · show (if logRat env ω d s > env.logf (acceptU ω d s) ∧ j < d.q
      then propM env ω d s j else s.pi_m j) = _
    rw [if_pos ⟨h, hj⟩]
  · show (if logRat env ω d s > env.logf (acceptU ω d s) ∧ j < d.q
      then propA env ω d s j else s.pi_a j) = _
    rw [if_pos ⟨h, hj⟩]
  · show (if logRat env ω d s > env.logf (acceptU ω d s) ∧ j < d.q
      then propM env ω d s j else s.pi_m j) = _
    rw [if_neg fun hc => h hc.1]
  · show (if logRat env ω d s > env.logf (acceptU ω d s) ∧ j < d.q
      then propA env ω d s j else s.pi_a j) = _
    rw [if_neg fun hc => h hc.1]

/-- C6: each of the seven variance components is the reciprocal of a
Gamma draw whose shape and scale (the reciprocal of the stated rate)
are exactly the posterior quantities of the claim. -/
theorem variance_component_draws (env : Env) (ω : ℕ → ℚ) (d : Dat) (s : St) :
    (varPhase env ω d s).sigma_e
      = 1 / env.gamf (ke + (d.n : ℚ) / 2)
          (1 / (le + (∑ i ∈ Finset.range d.n, s.res1 i * s.res1 i) / 2)) (ω s.cnt)
  ∧ (varPhase env ω d s).sigma_g
      = 1 / env.gamf (kg + (d.q : ℚ) * (d.n : ℚ) / 2)
          (1 / (lg + (∑ i ∈ Finset.range (d.n * d.q), s.res2 (i / d.n) (i % d.n)
                        * s.res2 (i / d.n) (i % d.n)) / 2)) (ω (s.cnt + 1))
  ∧ (sigma2Phase env ω d s).sigma_a
      = 1 / env.gamf (ka + 1/2) (1 / (la + s.beta_a * s.beta_a / 2)) (ω (s.cnt + 1))
  ∧ (sigma2Phase env ω d s).sigma_m1
      = 1 / env.gamf (km1 + (∑ j ∈ Finset.range d.q, s.r1 j) / 2)
          (1 / (lm1 + (∑ j ∈ Finset.range d.q, s.r1 j * (s.beta_m j * s.beta_m j)) / 2))
          (ω s.cnt)
  ∧ (sigma2Phase env ω d s).sigma_ma1
      = 1 / env.gamf (kma1 + (∑ j ∈ Finset.range d.q, s.r3 j) / 2)
          (1 / (lma1 + (∑ j ∈ Finset.range d.q, s.r3 j * (s.alpha_a j * s.alpha_a j)) / 2))
          (ω (s.cnt + 2))
  ∧ (sigma2Phase env ω d s).sigma_m0
      = 1 / env.gamf (km0 + (∑ j ∈ Finset.range d.q, (1 - s.r1 j)) / 2)
          (1 / (lm0 + (∑ j ∈ Finset.range d.q, (1 - s.r1 j) * (s.beta_m j * s.beta_m j)) / 2))
          (ω (s.cnt + 3))
  ∧ (sigma2Phase env ω d s).sigma_ma0
      = 1 / env.gamf (kma0 + (∑ j ∈ Finset.range d.q, (1 - s.r3 j)) / 2)
          (1 / (lma0 + (∑ j ∈ Finset.range d.q, (1 - s.r3 j) * (s.alpha_a j * s.alpha_a j)) / 2))
          (ω (s.cnt + 4)) := by
  refine ⟨?_, ?_, ?_, ?_, ?_, ?_, ?_⟩
  · show 1 / env.gamf (ke + (d.n : ℚ) / 2)
      (1 / ((∑ i ∈ Finset.range d.n, s.res1 i * s.res1 i) / 2 + le)) (ω s.cnt) = _
    rw [show (∑ i ∈ Finset.range d.n, s.res1 i * s.res1 i) / 2 + le
      = le + (∑ i ∈ Finset.range d.n, s.res1 i * s.res1 i) / 2 from by ring]
  · show 1 / env.gamf ((d.q : ℚ) * ((d.n : ℚ) / 2) + kg)
      (1 / ((∑ i ∈ Finset.range (d.n * d.q), s.res2 (i / d.n) (i % d.n)
              * s.res2 (i / d.n) (i % d.n)) / 2 + lg)) (ω (s.cnt + 1)) = _
    rw [show (d.q : ℚ) * ((d.n : ℚ) / 2) + kg = kg + (d.q : ℚ) * (d.n : ℚ) / 2 from by ring,
      show (∑ i ∈ Finset.range (d.n * d.q), s.res2 (i / d.n) (i % d.n)
              * s.res2 (i / d.n) (i % d.n)) / 2 + lg
        = lg + (∑ i ∈ Finset.range (d.n * d.q), s.res2 (i / d.n) (i % d.n)
              * s.res2 (i / d.n) (i % d.n)) / 2 from by ring]
  · show 1 / env.gamf (1/2 + ka) (1 / (s.beta_a * s.beta_a / 2 + la)) (ω (s.cnt + 1)) = _
    rw [show (1/2 : ℚ) + ka = ka + 1/2 from by ring,
      show s.beta_a * s.beta_a / 2 + la = la + s.beta_a * s.beta_a / 2 from by ring]
  · show 1 / env.gamf ((∑ j ∈ Finset.range d.q, s.r1 j) / 2 + km1)
      (1 / ((∑ j ∈ Finset.range d.q, s.beta_m j * s.beta_m j * s.r1 j) / 2 + lm1))
      (ω s.cnt) = _
    rw [show (∑ j ∈ Finset.range d.q, s.beta_m j * s.beta_m j * s.r1 j)
        = ∑ j ∈ Finset.range d.q, s.r1 j * (s.beta_m j * s.beta_m j) from
      Finset.sum_congr rfl fun j _ => by ring]
    rw [show (∑ j ∈ Finset.range d.q, s.r1 j) / 2 + km1
        = km1 + (∑ j ∈ Finset.range d.q, s.r1 j) / 2 from by ring,
      show (∑ j ∈ Finset.range d.q, s.r1 j * (s.beta_m j * s.beta_m j)) / 2 + lm1
        = lm1 + (∑ j ∈ Finset.range d.q, s.r1 j * (s.beta_m j * s.beta_m j)) / 2 from by ring]
  · show 1 / env.gamf ((∑ j ∈ Finset.range d.q, s.r3 j) / 2 + kma1)
      (1 / ((∑ j ∈ Finset.range d.q, s.alpha_a j * s.alpha_a j * s.r3 j) / 2 + lma1))
      (ω (s.cnt + 2)) = _
    rw [show (∑ j ∈ Finset.range d.q, s.alpha_a j * s.alpha_a j * s.r3 j)
        = ∑ j ∈ Finset.range d.q, s.r3 j * (s.alpha_a j * s.alpha_a j) from
      Finset.sum_congr rfl fun j _ => by ring]
    rw [show (∑ j ∈ Finset.range d.q, s.r3 j) / 2 + kma1
        = kma1 + (∑ j ∈ Finset.range d.q, s.r3 j) / 2 from by ring,
      show (∑ j ∈ Finset.range d.q, s.r3 j * (s.alpha_a j * s.alpha_a j)) / 2 + lma1
        = lma1 + (∑ j ∈ Finset.range d.q, s.r3 j * (s.alpha_a j * s.alpha_a j)) / 2 from by
        ring]
  · show 1 / env.gamf ((∑ j ∈ Finset.range d.q, (1 - s.r1 j)) / 2 + km0)
      (1 / ((∑ j ∈ Finset.range d.q, s.beta_m j * s.beta_m j * (1 - s.r1 j)) / 2 + lm0))
      (ω (s.cnt + 3)) = _
    rw [show (∑ j ∈ Finset.range d.q, s.beta_m j * s.beta_m j * (1 - s.r1 j))
        = ∑ j ∈ Finset.range d.q, (1 - s.r1 j) * (s.beta_m j * s.beta_m j) from
      Finset.sum_congr rfl fun j _ => by ring]
    rw [show (∑ j ∈ Finset.range d.q, (1 - s.r1 j)) / 2 + km0
        = km0 + (∑ j ∈ Finset.range d.q, (1 - s.r1 j)) / 2 from by ring,
      show (∑ j ∈ Finset.range d.q, (1 - s.r1 j) * (s.beta_m j * s.beta_m j)) / 2 + lm0
        = lm0 + (∑ j ∈ Finset.range d.q, (1 - s.r1 j) * (s.beta_m j * s.beta_m j)) / 2 from by
        ring]
  · show 1 / env.gamf ((∑ j ∈ Finset.range d.q, (1 - s.r3 j)) / 2 + kma0)
      (1 / ((∑ j ∈ Finset.range d.q, s.alpha_a j * s.alpha_a j * (1 - s.r3 j)) / 2 + lma0))
      (ω (s.cnt + 4)) = _
    rw [show (∑ j ∈ Finset.range d.q, s.alpha_a j * s.alpha_a j * (1 - s.r3 j))
        = ∑ j ∈ Finset.range d.q, (1 - s.r3 j) * (s.alpha_a j * s.alpha_a j) from
      Finset.sum_congr rfl fun j _ => by ring]
    rw [show (∑ j ∈ Finset.range d.q, (1 - s.r3 j)) / 2 + kma0
        = kma0 + (∑ j ∈ Finset.range d.q, (1 - s.r3 j)) / 2 from by ring,
      show (∑ j ∈ Finset.range d.q, (1 - s.r3 j) * (s.alpha_a j * s.alpha_a j)) / 2 + lma0
        = lma0 + (∑ j ∈ Finset.range d.q, (1 - s.r3 j) * (s.alpha_a j * s.alpha_a j)) / 2 from by
        ring]

/-- C7: `Iteration(burnIn, it)` appends exactly one row to the file
named from the mediator count iff `it > burnIn` and `it % 10 = 0`, and
writes nothing to the file otherwise; the row lists, for each mediator
`j` in order, `beta_m[j] pi_m[j] alpha_a[j] pi_a[j]`, followed by
`beta_a`. -/
theorem result_sink_rule (env : Env) (ω : ℕ → ℚ) (d : Dat) (burnIn it : ℕ) (s : St) :
    (Iteration env ω d burnIn it s).2.filter isAppendB
      = if burnIn < it ∧ it % 10 = 0 then
          [Event.appendRow ("results_" ++ toString d.q ++ ".txt")
            (((List.range d.q).flatMap fun j =>
                [(Iteration env ω d burnIn it s).1.beta_m j,
                 (Iteration env ω d burnIn it s).1.pi_m j,
                 (Iteration env ω d burnIn it s).1.alpha_a j,
                 (Iteration env ω d burnIn it s).1.pi_a j])
              ++ [(Iteration env ω d burnIn it s).1.beta_a])]
        else [] := by
  by_cases hA : it % 10000 = 0 <;> by_cases hB : it % 1000 = 0 <;>
    by_cases hC : burnIn < it ∧ it % 10 = 0 <;>
      simp [Iteration, hA, hB, hC, isAppendB, rowOf, outFileName]

/-- C9 (counterexample): at iteration 0 the call performs externally
observable effects other than the conditional Result-Sink append — the
`srand(it)` reseeding and the diagnostic prints. -/
theorem effects_counterexample :
    Event.srandCall 0 ∈ (Iteration cEnv cOmega dZero 5 0 sZero).2
    ∧ isAppendB (Event.srandCall 0) = false
    ∧ Event.printIter 0 ∈ (Iteration cEnv cOmega dZero 5 0 sZero).2 := by
  refine ⟨?_, rfl, ?_⟩ <;> decide

/-- C9 (amended): the externally observable effects of
`Iteration(burnIn, it)` are exactly, in order: the `srand(it)` call,
a diagnostic print of the variance components when `it % 10000 = 0`, a
progress print when `it % 1000 = 0`, and the single Result-Sink append
when `it > burnIn` and `it % 10 = 0`. -/
theorem effects_characterization (env : Env) (ω : ℕ → ℚ) (d : Dat) (burnIn it : ℕ) (s : St) :
    (Iteration env ω d burnIn it s).2
      = [Event.srandCall it]
        ++ (if it % 10000 = 0 then
              [Event.printSigmas [s.sigma_m0, s.sigma_e, s.sigma_g, s.sigma_ma0,
                s.sigma_m1, s.sigma_a, s.sigma_ma1]] else [])
        ++ (if it % 1000 = 0 then [Event.printIter it] else [])
        ++ (if burnIn < it ∧ it % 10 = 0 then
              [Event.appendRow (outFileName d.q)
                (rowOf d (Iteration env ω d burnIn it s).1)]
            else []) := rfl

/-- C8: two runs with the same environment, the same random stream and
identical inputs produce identical state trajectories — in particular
the same draw positions, so every random draw is consumed in the same
order. -/
theorem reproducible_trajectories (env1 env2 : Env) (ω1 ω2 : ℕ → ℚ) (d1 d2 : Dat)
    (bm1 bm2 aa1 aa2 pm1 pm2 pa1 pa2 : ℕ → ℚ) (bi1 bi2 niter : ℕ)
    (henv : env1 = env2) (hω : ω1 = ω2) (hd : d1 = d2) (hbm : bm1 = bm2)
    (haa : aa1 = aa2) (hpm : pm1 = pm2) (hpa : pa1 = pa2) (hbi : bi1 = bi2) :
    ∀ k ≤ niter, chainState env1 ω1 d1 bm1 aa1 pm1 pa1 bi1 k
      = chainState env2 ω2 d2 bm2 aa2 pm2 pa2 bi2 k := by
  subst henv hω hd hbm haa hpm hpa hbi
  exact fun k _ => rfl

/-- C10: the constructor zeroes `r1`, `r3`, `beta_c` and `alpha_c` and
hard-codes `beta_a = 0.0135567741`, independently of the supplied data
matrices (which these fields never read). -/
theorem initial_values (env : Env) (ω : ℕ → ℚ) (bm0 aa0 pm0 pa0 : ℕ → ℚ) :
    (initSt env ω bm0 aa0 pm0 pa0).r1 = (fun _ => (0 : ℚ))
  ∧ (initSt env ω bm0 aa0 pm0 pa0).r3 = (fun _ => (0 : ℚ))
  ∧ (initSt env ω bm0 aa0 pm0 pa0).beta_c = (fun _ => (0 : ℚ))
  ∧ (initSt env ω bm0 aa0 pm0 pa0).alpha_c = (fun _ _ => (0 : ℚ))
  ∧ (initSt env ω bm0 aa0 pm0 pa0).beta_a = 135567741 / 10 ^ 10 :=
  ⟨rfl, rfl, rfl, rfl, rfl⟩

/-- C3 (evaluation at the failing input): with two rows, covariate
column `(2, 1)`, unit residuals, zero `beta_c` and all normal draws at
their mean, the `beta_c[0]` block of the code consumes two draws and
produces `9/25`, while the single-draw full-conditional update the
claim describes produces `3/5`. -/
theorem betaC_code_divergence :
    (betaCUpdate cEnv cOmega dC3 sC3 0).beta_c 0 = 9/25
    ∧ (betaCUpdate cEnv cOmega dC3 sC3 0).cnt = 2
    ∧ betaCSingleDraw cEnv cOmega dC3 sC3 0 = 3/5
    ∧ (betaCUpdate cEnv cOmega dC3 sC3 0).beta_c 0 ≠ betaCSingleDraw cEnv cOmega dC3 sC3 0 := by
  have h1 : (betaCUpdate cEnv cOmega dC3 sC3 0).beta_c 0 = 9/25 := by
    norm_num [betaCUpdate, betaCWrite, Function.update_same, List.range_succ, betaCInner,
      C1_2norm, dC3, sC3, sZero, cEnv, cOmega, normald, Finset.sum_range_succ]
  have h2 : betaCSingleDraw cEnv cOmega dC3 sC3 0 = 3/5 := by
    norm_num [betaCSingleDraw, C1_2norm, dC3, sC3, sZero, cEnv, cOmega, normald,
      Finset.sum_range_succ]
  refine ⟨h1, rfl, h2, ?_⟩
  rw [h1, h2]
  norm_num

/-- Witness for C4: at a concrete accepted proposal, both probability
vectors are overwritten. -/
theorem adaptive_joint_metropolis_witness :
    (adaptivePhase cEnvL cOmega dOne sHalf).pi_m 0 = propM cEnvL cOmega dOne sHalf 0
    ∧ (adaptivePhase cEnvL cOmega dOne sHalf).pi_a 0 = propA cEnvL cOmega dOne sHalf 0 :=
  (adaptive_joint_metropolis cEnvL cOmega dOne sHalf).2.1
    (by norm_num [logRat, PostDistribution1, PostDistribution2, acceptU, unifd, cEnvL,
      cOmega, dOne, sHalf, sZero, Finset.sum_range_succ])
    0 (by norm_num [dOne])

/-- Witness for C8: two runs from literally equal concrete inputs agree. -/
theorem reproducible_trajectories_witness :
    chainState cEnv cOmega dZero cOmega cOmega cOmega cOmega 3 1
      = chainState cEnv cOmega dZero cOmega cOmega cOmega cOmega 3 1 :=
  reproducible_trajectories cEnv cEnv cOmega cOmega dZero dZero cOmega cOmega cOmega cOmega
    cOmega cOmega cOmega cOmega 3 3 1 rfl rfl rfl rfl rfl rfl rfl rfl 1 (le_refl 1)

/-- C5 (counterexample): at `q = 2` the value `exp(1/200)/4` lies in the
claimed invariant range `(1/q², 1]`, the step `-1/100` lies in the
proposal window, yet the reflected proposal exceeds `1`: the rescaling
branch maps it to `exp(1/200) > 1`. -/
theorem pi_range_counterexample :
    (1 / (2:ℝ)^2 < Real.exp (1/200) / 4 ∧ Real.exp (1/200) / 4 ≤ 1)
    ∧ ((-(1/100) : ℝ) ≤ -(1/100) ∧ ((-(1/100)) : ℝ) ≤ 1/100)
    ∧ 1 < piStep 2 (Real.exp (1/200) / 4) (-(1/100)) := by
  have he1 : (1:ℝ) < Real.exp (1/200) := by nlinarith [Real.add_one_le_exp (1/200 : ℝ)]
  have he4 : Real.exp (1/200) < 4 := by
    have h1 : Real.exp (1/200) < Real.exp 1 := Real.exp_lt_exp.mpr (by norm_num)
    have h2 := Real.exp_one_lt_d9
    linarith
  have hkey : Real.exp (1/200) / 4 * Real.exp (-(1/100)) = Real.exp (-(1/200)) / 4 := by
    rw [div_mul_eq_mul_div, ← Real.exp_add]
    norm_num
  have ha1 : Real.exp (-(1/200)) < 1 := by
    rw [Real.exp_neg]
    exact inv_lt_one_of_one_lt₀ he1
  have ha0 : (0:ℝ) < Real.exp (-(1/200)) := Real.exp_pos _
  refine ⟨⟨by norm_num; linarith, by linarith⟩, ⟨le_refl _, by norm_num⟩, ?_⟩
  show 1 < stepTwo 2 (stepOne (Real.exp (1/200) / 4 * Real.exp (-(1/100))))
  rw [hkey]
  have hv0 : (0:ℝ) < Real.exp (-(1/200)) / 4 := by positivity
  have hv1 : Real.exp (-(1/200)) / 4 < 1 := by linarith
  have hs1 : stepOne (Real.exp (-(1/200)) / 4) = Real.exp (-(1/200)) / 4 := by
    simp only [stepOne, abs_of_pos hv0, if_neg (not_lt.mpr (le_of_lt hv1))]
  rw [hs1]
  have hv2 : Real.exp (-(1/200)) / 4 < 1 / ((2:ℕ) : ℝ) := by push_cast; linarith
  have hs2 : stepTwo 2 (Real.exp (-(1/200)) / 4)
      = 1 / (((2:ℕ) : ℝ) * ((2:ℕ) : ℝ) * (Real.exp (-(1/200)) / 4)) := by
    simp only [stepTwo, if_pos hv2]
  rw [hs2]
  push_cast
  rw [show (2:ℝ) * 2 * (Real.exp (-(1/200)) / 4) = Real.exp (-(1/200)) from by ring,
    Real.exp_neg, one_div, inv_inv]
  exact he1

set_option maxHeartbeats 1000000 in
/-- C5 (amended): for `q ≥ 2` the reflection map preserves the range
`(1/q², exp(1/100)]`: from a current value in that range and a step in
`[-1/100, 1/100]`, the proposed (hence any accepted) value stays above
the floor `1/q²`, but its upper bound is `exp(1/100)`, not `1`. -/
theorem pi_reflect_invariant (q : ℕ) (hq : 2 ≤ q) (p eps : ℝ)
    (hp1 : 1 / (q : ℝ)^2 < p) (hp2 : p ≤ Real.exp (1/100))
    (he1 : -(1/100) ≤ eps) (he2 : eps ≤ 1/100) :
    1 / (q : ℝ)^2 < piStep q p eps ∧ piStep q p eps ≤ Real.exp (1/100) := by
  have hQ : (2:ℝ) ≤ (q:ℝ) := by exact_mod_cast hq
  have hQ0 : (0:ℝ) < (q:ℝ) := by linarith
  have hB1 : (1:ℝ) < Real.exp (1/100) := by nlinarith [Real.add_one_le_exp (1/100 : ℝ)]
  have hB2 : Real.exp (1/100) * Real.exp (1/100) < 2 := by
    rw [← Real.exp_add]
    have hl : (1/100 + 1/100 : ℝ) < Real.log 2 := by
      have := Real.log_two_gt_d9
      linarith
    calc Real.exp (1/100 + 1/100) < Real.exp (Real.log 2) := Real.exp_lt_exp.mpr hl
      _ = 2 := Real.exp_log (by norm_num)
  have hp0 : (0:ℝ) < p := lt_trans (by positivity) hp1
  have hE0 : (0:ℝ) < Real.exp eps := Real.exp_pos eps
  have hElo : Real.exp (-(1/100)) ≤ Real.exp eps := Real.exp_le_exp.mpr he1
  have hEhi : Real.exp eps ≤ Real.exp (1/100) := Real.exp_le_exp.mpr he2
  have hv0 : (0:ℝ) < p * Real.exp eps := mul_pos hp0 hE0
  have hvlow : 1 / ((q:ℝ)^2 * Real.exp (1/100)) < p * Real.exp eps := by
    calc 1 / ((q:ℝ)^2 * Real.exp (1/100)) = (1 / (q:ℝ)^2) * Real.exp (-(1/100)) := by
          rw [Real.exp_neg]
          field_simp
      _ ≤ (1 / (q:ℝ)^2) * Real.exp eps := by
          apply mul_le_mul_of_nonneg_left hElo (by positivity)
      _ < p * Real.exp eps := mul_lt_mul_of_pos_right hp1 hE0
  have hvhigh : p * Real.exp eps ≤ Real.exp (1/100) * Real.exp (1/100) :=
    mul_le_mul hp2 hEhi (le_of_lt hE0) (le_of_lt (Real.exp_pos _))
  have habs : |p * Real.exp eps| = p * Real.exp eps := abs_of_pos hv0
  have hq4 : 1 / (q:ℝ)^2 ≤ 1/4 := by
    apply one_div_le_one_div_of_le (by norm_num)
    nlinarith
  have hq2 : 1 / (q:ℝ) ≤ 1/2 := one_div_le_one_div_of_le two_pos hQ
  show 1 / (q:ℝ)^2 < stepTwo q (stepOne (p * Real.exp eps))
    ∧ stepTwo q (stepOne (p * Real.exp eps)) ≤ Real.exp (1/100)
  by_cases h1 : 1 < p * Real.exp eps
  · have hw : stepOne (p * Real.exp eps) = 1 / (p * Real.exp eps) := by
      simp only [stepOne, habs, if_pos h1]
    rw [hw]
    have hv2 : p * Real.exp eps < 2 := lt_of_le_of_lt hvhigh hB2
    have hinv2 : 1/2 < 1 / (p * Real.exp eps) := one_div_lt_one_div_of_lt hv0 hv2
    have hnot : ¬ (1 / (p * Real.exp eps) < 1 / (q:ℝ)) := by
      intro hcon
      linarith
    have hst : stepTwo q (1 / (p * Real.exp eps)) = 1 / (p * Real.exp eps) := by
      simp only [stepTwo, if_neg hnot]
    rw [hst]
    constructor
    · linarith
    · have hlt1 : 1 / (p * Real.exp eps) < 1 := by
        rw [div_lt_one hv0]
        exact h1
      linarith
  · have hw : stepOne (p * Real.exp eps) = p * Real.exp eps := by
      simp only [stepOne, habs, if_neg h1]
    rw [hw]
    by_cases h2 : p * Real.exp eps < 1 / (q:ℝ)
    · have hst : stepTwo q (p * Real.exp eps)
          = 1 / ((q:ℝ) * (q:ℝ) * (p * Real.exp eps)) := by
        simp only [stepTwo, if_pos h2]
      rw [hst, show (q:ℝ) * (q:ℝ) = (q:ℝ)^2 from by ring]
      have h0 : (0:ℝ) < (q:ℝ)^2 * (p * Real.exp eps) := by positivity
      constructor
      · have hv1 : p * Real.exp eps < 1 := by
          have : (1:ℝ) / (q:ℝ) < 1 := by
            rw [div_lt_one hQ0]
            linarith
          linarith
        have hlt : (q:ℝ)^2 * (p * Real.exp eps) < (q:ℝ)^2 := by nlinarith
        exact one_div_lt_one_div_of_lt h0 hlt
      · have hgt : 1 / Real.exp (1/100) < (q:ℝ)^2 * (p * Real.exp eps) := by
          have hq2pos : (0:ℝ) < (q:ℝ)^2 := by positivity
          calc 1 / Real.exp (1/100)
              = (q:ℝ)^2 * (1 / ((q:ℝ)^2 * Real.exp (1/100))) := by field_simp
            _ < (q:ℝ)^2 * (p * Real.exp eps) := mul_lt_mul_of_pos_left hvlow hq2pos
        have hfin : 1 / ((q:ℝ)^2 * (p * Real.exp eps)) < Real.exp (1/100) := by
          rw [div_lt_iff₀ h0]
          have h3 := mul_lt_mul_of_pos_left hgt (Real.exp_pos (1/100 : ℝ))
          rw [mul_one_div, div_self (ne_of_gt (Real.exp_pos (1/100 : ℝ)))] at h3
          linarith [mul_comm ((q:ℝ)^2 * (p * Real.exp eps)) (Real.exp (1/100))]
        linarith
    · have hst : stepTwo q (p * Real.exp eps) = p * Real.exp eps := by
        simp only [stepTwo, if_neg h2]
      rw [hst]
      constructor
      · have hlt : 1 / (q:ℝ)^2 < 1 / (q:ℝ) := by
          apply one_div_lt_one_div_of_lt hQ0
          nlinarith [sq_nonneg ((q:ℝ) - 1)]
        have hge : 1 / (q:ℝ) ≤ p * Real.exp eps := not_lt.mp h2
        linarith
      · have hle1 : p * Real.exp eps ≤ 1 := not_lt.mp h1
        linarith

/-- Witness for the amended C5 at `q = 2`, `pi = 1`, `eps = 0`. -/
theorem pi_reflect_invariant_witness :
    1 / ((2:ℕ) : ℝ)^2 < piStep 2 1 0 ∧ piStep 2 1 0 ≤ Real.exp (1/100) :=
  pi_reflect_invariant 2 (le_refl 2) 1 0 (by norm_num)
    (by nlinarith [Real.add_one_le_exp (1/100 : ℝ)]) (by norm_num) (by norm_num)

end Bslmm
